import Mathlib

/-!
Verification of the NEXUS-AI-Forge indexing / symbol-extraction / search core.

Shallow embedding of the Rust sources:
  * src/core/parser.rs   — languages, symbols, tree walking, symbol counts
  * src/index/mod.rs     — directory indexing and aggregation
  * src/cli/search.rs    — relevance-ranked search
  * src/cli/ask.rs       — keyword extraction for context building
  * src/ai/context.rs    — token-budgeted context assembly

Modelling conventions:
  * Rust `String`/`&str` are Lean `String`; all string operations used by the
    code (to_lowercase, contains, split_whitespace, lines, slice+join) are
    re-implemented below by structural recursion over the character list so
    that concrete runs evaluate inside the kernel.
  * `f64` scores are modelled as exact rationals (ℚ); every score produced by
    the code is of the form (integer)·m with m ∈ {1, 11/10, 23/20, 6/5}, so
    rational arithmetic models the comparisons faithfully.
  * A Rust panic (out-of-range slice, `unwrap` failure) is modelled by an
    `Option` result being `none`.
  * Filesystem reads are modelled by passing the current content of each file
    alongside its parsed form: `fs::read_to_string(p).unwrap_or_default()`
    becomes an explicit `String` input (empty on read error).
-/

namespace Nexus

/-! ### String helpers (models of the Rust `str` operations used by the code) -/

/-- Model of Rust `str::to_lowercase` (ASCII-adequate, per-character). -/
def lowerStr (s : String) : String := String.mk (s.data.map Char.toLower)

/-- Helper for `strContains`: does `needle` occur as a contiguous
subsequence of `hay`? -/
def strContainsList (needle : List Char) : List Char → Bool
  | [] => needle.isEmpty
  | c :: t => needle.isPrefixOf (c :: t) || strContainsList needle t

/-- Model of Rust `str::contains` (substring test). -/
def strContains (hay needle : String) : Bool := strContainsList needle.data hay.data

/-- Accumulator loop for `splitWs`; `acc` holds the current word reversed. -/
def splitWsAcc : List Char → List Char → List String
  | [], acc => if acc.isEmpty then [] else [String.mk acc.reverse]
  | c :: t, acc =>
    if c.isWhitespace then
      (if acc.isEmpty then splitWsAcc t [] else String.mk acc.reverse :: splitWsAcc t [])
    else splitWsAcc t (c :: acc)

/-- Model of Rust `str::split_whitespace` (no empty words). -/
def splitWs (s : String) : List String := splitWsAcc s.data []

/-- Drop the carriage return terminating a line, if present; the line is
given reversed, so the CR sits at the head. -/
def stripCrRev : List Char → List Char
  | '\r' :: t => t
  | acc => acc

/-- Accumulator loop for `rustLines`; `acc` holds the current line reversed. -/
def linesAcc : List Char → List Char → List String
  | [], acc => if acc.isEmpty then [] else [String.mk (stripCrRev acc).reverse]
  | c :: t, acc =>
    if c = '\n' then String.mk (stripCrRev acc).reverse :: linesAcc t []
    else linesAcc t (c :: acc)

/-- Model of Rust `str::lines`: split on newlines, no entry for a trailing
newline, trailing carriage returns stripped. -/
def rustLines (s : String) : List String := linesAcc s.data []

/-- Model of `Vec<&str>::join("\n")`. -/
def joinNl : List String → String
  | [] => ""
  | [x] => x
  | x :: y :: xs => x ++ "\n" ++ joinNl (y :: xs)

/-- Model of Rust `text.lines().next().unwrap_or("")`. -/
def firstLine (s : String) : String := (rustLines s).headD ""

/-- Model of the Rust slice-and-join `lines[a..b].join("\n")`.  Rust panics
when `a > b` or `b > lines.len()`; the panic is modelled by `none`. -/
def sliceJoin (lines : List String) (a b : Nat) : Option String :=
  if a ≤ b ∧ b ≤ lines.length then some (joinNl ((lines.drop a).take (b - a))) else none

/-! ### Kernel-computable rationals

The search scores are `f64` values in the source; every value actually
produced is an exact multiple of 1/20, so they are modelled as exact
rationals.  `Rat` arithmetic normalizes through `Nat.gcd`, which the
elaborator cannot evaluate, so we construct the needed rationals through a
fuel-based gcd that reduces definitionally. -/

/-- Euclid's algorithm with explicit fuel (structural recursion, so it
evaluates inside the kernel). -/
def gcdFuel : Nat → Nat → Nat → Nat
  | 0, _, n => n
  | fuel + 1, m, n => if m = 0 then n else gcdFuel fuel (n % m) m

/-- Gcd via `gcdFuel`; `m + 1` steps of Euclid always suffice. -/
def fastGcd (m n : Nat) : Nat := gcdFuel (m + 1) m n

def gcdFuel_eq (fuel : Nat) : ∀ m n : Nat, m < fuel → gcdFuel fuel m n = Nat.gcd m n := by
  induction fuel with
  | zero => intro m n h; omega
  | succ f ih =>
    intro m n h
    by_cases hm : m = 0
    · subst hm; simp [gcdFuel]
    · have hrec : n % m < f := by
        have h1 : n % m < m := Nat.mod_lt _ (Nat.pos_of_ne_zero hm)
        omega
      rw [gcdFuel, if_neg hm, ih _ _ hrec]
      exact (Nat.gcd_rec m n).symm

def fastGcd_eq (m n : Nat) : fastGcd m n = Nat.gcd m n :=
  gcdFuel_eq (m + 1) m n (Nat.lt_succ_self m)

def fastMkRat_den_nz (n d : Nat) (hd : ¬d = 0) : d / fastGcd n d ≠ 0 := by
  rw [fastGcd_eq]
  exact Nat.ne_of_gt (Nat.div_gcd_pos_of_pos_right n (Nat.pos_of_ne_zero hd))

def fastMkRat_reduced (n d : Nat) (hd : ¬d = 0) :
    (Int.ofNat (n / fastGcd n d)).natAbs.Coprime (d / fastGcd n d) := by
  rw [fastGcd_eq]
  simpa [Int.natAbs_ofNat] using
    Nat.coprime_div_gcd_div_gcd (m := n) (n := d)
      (Nat.gcd_pos_of_pos_right n (Nat.pos_of_ne_zero hd))

/-- Construct the rational `n / d` in reduced form, using only
kernel-computable operations. -/
def fastMkRat (n d : Nat) : ℚ :=
  if hd : d = 0 then 0 else
    Rat.mk' (Int.ofNat (n / fastGcd n d)) (d / fastGcd n d)
      (fastMkRat_den_nz n d hd) (fastMkRat_reduced n d hd)

/-! ### Data model from src/core/parser.rs -/

/-- Supported programming languages (src/core/parser.rs, enum Language). -/
inductive Language where
  | Rust
  | Python
  | JavaScript
  | TypeScript
  | Unknown
deriving DecidableEq, Repr

/-- Types of symbols (src/core/parser.rs, enum SymbolKind). -/
inductive SymbolKind where
  | Function
  | Struct
  | Class
  | Enum
  | Trait
  | Interface
  | Module
  | Constant
  | Impl
  | TypeAlias
deriving DecidableEq, Repr

/-- Symbol extracted from code (src/core/parser.rs, struct Symbol). -/
structure Symbol where
  name : String
  kind : SymbolKind
  line_start : Nat
  line_end : Nat
  signature : Option String
deriving DecidableEq, Repr

/-- Parsed file with extracted symbols (src/core/parser.rs, struct ParsedFile).
The path is kept as a string. -/
structure ParsedFile where
  path : String
  language : Language
  content : String
  symbols : List Symbol
  line_count : Nat
deriving DecidableEq, Repr

/-- Counts of different symbol types (src/core/parser.rs, struct SymbolCounts). -/
structure SymbolCounts where
  functions : Nat := 0
  types : Nat := 0
  enums : Nat := 0
  traits : Nat := 0
  modules : Nat := 0
  constants : Nat := 0
  impls : Nat := 0
  type_aliases : Nat := 0
deriving DecidableEq, Repr

/-- Model of SymbolCounts::total. -/
def SymbolCounts.total (c : SymbolCounts) : Nat :=
  c.functions + c.types + c.enums + c.traits +
  c.modules + c.constants + c.impls + c.type_aliases

/-- One step of the counting loop in ParsedFile::symbol_counts. -/
def countSymbol (c : SymbolCounts) (s : Symbol) : SymbolCounts :=
  match s.kind with
  | SymbolKind.Function => { c with functions := c.functions + 1 }
  | SymbolKind.Struct => { c with types := c.types + 1 }
  | SymbolKind.Class => { c with types := c.types + 1 }
  | SymbolKind.Enum => { c with enums := c.enums + 1 }
  | SymbolKind.Trait => { c with traits := c.traits + 1 }
  | SymbolKind.Interface => { c with traits := c.traits + 1 }
  | SymbolKind.Module => { c with modules := c.modules + 1 }
  | SymbolKind.Constant => { c with constants := c.constants + 1 }
  | SymbolKind.Impl => { c with impls := c.impls + 1 }
  | SymbolKind.TypeAlias => { c with type_aliases := c.type_aliases + 1 }

/-- Model of ParsedFile::symbol_counts (src/core/parser.rs lines 386-404). -/
def symbol_counts (pf : ParsedFile) : SymbolCounts :=
  pf.symbols.foldl countSymbol {}

/-! ### Syntax-tree model

A tree-sitter node, restricted to the interface actually used by
CodeParser::walk_tree and the extract functions:
  * kind       — the node-kind string (tree-sitter Node::kind);
  * startRow/endRow — 0-based rows of start_position()/end_position();
  * srcText    — the slice content[node.byte_range()];
  * nameText   — text of child_by_field_name("name"), when that child exists;
  * typeText   — text of child_by_field_name("type"), when that child exists;
  * children   — the named+anonymous children visited by node.children(). -/
inductive TsNode where
  | mk (kind : String) (startRow endRow : Nat) (srcText : String)
       (nameText typeText : Option String) (children : List TsNode)

def TsNode.kind : TsNode → String
  | .mk k _ _ _ _ _ _ => k

def TsNode.startRow : TsNode → Nat
  | .mk _ s _ _ _ _ _ => s

def TsNode.endRow : TsNode → Nat
  | .mk _ _ e _ _ _ _ => e

def TsNode.srcText : TsNode → String
  | .mk _ _ _ t _ _ _ => t

def TsNode.nameText : TsNode → Option String
  | .mk _ _ _ _ n _ _ => n

def TsNode.typeText : TsNode → Option String
  | .mk _ _ _ _ _ ty _ => ty

def TsNode.children : TsNode → List TsNode
  | .mk _ _ _ _ _ _ cs => cs

/-- Model of CodeParser::get_signature (src/core/parser.rs lines 369-374):
the first line of the node's source text. -/
def get_signature (srcText : String) : String := firstLine srcText

/-- Model of CodeParser::extract_rust_symbol (src/core/parser.rs lines
167-262): the symbols the node itself contributes (zero or one). -/
def extract_rust_symbol (kind : String) (startRow endRow : Nat) (srcText : String)
    (nameText typeText : Option String) : List Symbol :=
  if kind = "function_item" ∨ kind = "function_signature_item" then
    match nameText with
    | some name =>
      [{ name, kind := .Function, line_start := startRow + 1, line_end := endRow + 1,
         signature := some (get_signature srcText) }]
    | none => []
  else if kind = "struct_item" then
    match nameText with
    | some name =>
      [{ name, kind := .Struct, line_start := startRow + 1, line_end := endRow + 1,
         signature := none }]
    | none => []
  else if kind = "enum_item" then
    match nameText with
    | some name =>
      [{ name, kind := .Enum, line_start := startRow + 1, line_end := endRow + 1,
         signature := none }]
    | none => []
  else if kind = "impl_item" then
    match typeText with
    | some tyName =>
      [{ name := "impl " ++ tyName, kind := .Impl, line_start := startRow + 1,
         line_end := endRow + 1, signature := none }]
    | none => []
  else if kind = "trait_item" then
    match nameText with
    | some name =>
      [{ name, kind := .Trait, line_start := startRow + 1, line_end := endRow + 1,
         signature := none }]
    | none => []
  else if kind = "mod_item" then
    match nameText with
    | some name =>
      [{ name, kind := .Module, line_start := startRow + 1, line_end := endRow + 1,
         signature := none }]
    | none => []
  else if kind = "const_item" ∨ kind = "static_item" then
    match nameText with
    | some name =>
      [{ name, kind := .Constant, line_start := startRow + 1, line_end := endRow + 1,
         signature := none }]
    | none => []
  else []

/-- Model of CodeParser::extract_python_symbol (src/core/parser.rs lines
265-300). -/
def extract_python_symbol (kind : String) (startRow endRow : Nat) (srcText : String)
    (nameText : Option String) : List Symbol :=
  if kind = "function_definition" then
    match nameText with
    | some name =>
      [{ name, kind := .Function, line_start := startRow + 1, line_end := endRow + 1,
         signature := some (get_signature srcText) }]
    | none => []
  else if kind = "class_definition" then
    match nameText with
    | some name =>
      [{ name, kind := .Class, line_start := startRow + 1, line_end := endRow + 1,
         signature := none }]
    | none => []
  else []

/-- Model of CodeParser::extract_js_symbol (src/core/parser.rs lines
303-362). -/
def extract_js_symbol (kind : String) (startRow endRow : Nat) (srcText : String)
    (nameText : Option String) : List Symbol :=
  if kind = "function_declaration" ∨ kind = "method_definition" ∨ kind = "arrow_function" then
    match nameText with
    | some name =>
      [{ name, kind := .Function, line_start := startRow + 1, line_end := endRow + 1,
         signature := some (get_signature srcText) }]
    | none => []
  else if kind = "class_declaration" then
    match nameText with
    | some name =>
      [{ name, kind := .Class, line_start := startRow + 1, line_end := endRow + 1,
         signature := none }]
    | none => []
  else if kind = "interface_declaration" then
    match nameText with
    | some name =>
      [{ name, kind := .Interface, line_start := startRow + 1, line_end := endRow + 1,
         signature := none }]
    | none => []
  else if kind = "type_alias_declaration" then
    match nameText with
    | some name =>
      [{ name, kind := .TypeAlias, line_start := startRow + 1, line_end := endRow + 1,
         signature := none }]
    | none => []
  else []

/-- Dispatch on the language, as in CodeParser::walk_tree's match: the
symbols contributed by one node (before recursing into children). -/
def ownSymbols (lang : Language) (n : TsNode) : List Symbol :=
  match lang with
  | .Rust => extract_rust_symbol n.kind n.startRow n.endRow n.srcText n.nameText n.typeText
  | .Python => extract_python_symbol n.kind n.startRow n.endRow n.srcText n.nameText
  | .JavaScript => extract_js_symbol n.kind n.startRow n.endRow n.srcText n.nameText
  | .TypeScript => extract_js_symbol n.kind n.startRow n.endRow n.srcText n.nameText
  | .Unknown => []

mutual

/-- Model of CodeParser::walk_tree (src/core/parser.rs lines 139-164):
pre-order traversal, the node's own symbols followed by the children's. -/
def walk_tree (lang : Language) : TsNode → List Symbol
  | .mk k s e txt nm ty cs =>
    ownSymbols lang (.mk k s e txt nm ty cs) ++ walkChildren lang cs

/-- Traversal of a child list, left to right (the loop over
node.children in walk_tree). -/
def walkChildren (lang : Language) : List TsNode → List Symbol
  | [] => []
  | c :: cs => walk_tree lang c ++ walkChildren lang cs

end

/-- Model of CodeParser::extract_symbols (src/core/parser.rs lines 129-136). -/
def extract_symbols (lang : Language) (root : TsNode) : List Symbol :=
  walk_tree lang root

/-- Model of the ParsedFile assembled by CodeParser::parse_file
(src/core/parser.rs lines 93-110): `line_count` is
tree.root_node().end_position().row + 1. -/
def parse_file_model (path : String) (content : String) (lang : Language)
    (root : TsNode) : ParsedFile :=
  { path, language := lang, content, symbols := extract_symbols lang root,
    line_count := root.endRow + 1 }

/-- Well-formedness of a tree-sitter syntax tree: every node's span is
ordered, and every child's span ends no later than its parent's.
These are invariants of tree-sitter trees, not of this codebase. -/
inductive Wf : TsNode → Prop where
  | mk {k : String} {s e : Nat} {txt : String} {nm ty : Option String} {cs : List TsNode} :
      s ≤ e →
      (∀ c, c ∈ cs → Wf c) →
      (∀ c, c ∈ cs → TsNode.endRow c ≤ e) →
      Wf (.mk k s e txt nm ty cs)

/-- Reachability from a node to a node of its subtree. -/
inductive Reaches : TsNode → TsNode → Prop where
  | refl (n : TsNode) : Reaches n n
  | child {n c m : TsNode} : c ∈ TsNode.children n → Reaches c m → Reaches n m

/-! ### Directory indexing, from src/index/mod.rs

The filesystem walk (collect_files) and tree-sitter parsing are I/O; their
combined outcome is passed in explicitly: the walk produces the list of
supported files in walk order, and for each file either the `ParsedFile`
that parser.parse_file returns or the error message `e.to_string()`. -/

/-- One file seen by the indexing loop: its path together with the outcome
of parser.parse_file on it. -/
def FileEntry : Type := String × Except String ParsedFile

/-- Result of indexing operation (src/index/mod.rs, struct IndexResult).
The wall-clock field time_taken_ms is not modelled. -/
structure IndexResult where
  files_indexed : Nat
  files_skipped : Nat
  total_lines : Nat
  symbols : SymbolCounts
  errors : List (String × String)
deriving DecidableEq, Repr

/-- Model of IndexResult::empty (src/index/mod.rs lines 320-331). -/
def IndexResult.empty : IndexResult :=
  { files_indexed := 0, files_skipped := 0, total_lines := 0, symbols := {}, errors := [] }

/-- Accumulation step of the parse loop in index_directory (src/index/mod.rs
lines 68-92): on success add seven of the eight SymbolCounts fields (the
source omits type_aliases) and keep the file; on error record it only when
verbose is set. -/
def indexLoop (verbose : Bool) : List FileEntry → List ParsedFile × List (String × String) × SymbolCounts
  | [] => ([], [], {})
  | (path, outcome) :: rest =>
    let (parsedFiles, errors, total) := indexLoop verbose rest
    match outcome with
    | .ok parsed =>
      let counts := symbol_counts parsed
      (parsed :: parsedFiles, errors,
        { total with
          functions := total.functions + counts.functions
          types := total.types + counts.types
          enums := total.enums + counts.enums
          traits := total.traits + counts.traits
          modules := total.modules + counts.modules
          constants := total.constants + counts.constants
          impls := total.impls + counts.impls })
    | .error e =>
      (parsedFiles, if verbose then (path, e) :: errors else errors, total)

/-- Model of index_directory (src/index/mod.rs lines 40-112), after the
I/O boundary: progress-bar and printing stripped, `files` is the
collect_files output paired with each file's parse outcome. -/
def index_directory (verbose : Bool) (files : List FileEntry) : IndexResult :=
  if files.isEmpty then IndexResult.empty
  else
    let (parsedFiles, errors, totalSymbols) := indexLoop verbose files
    { files_indexed := parsedFiles.length
      files_skipped := errors.length
      total_lines := (parsedFiles.map (·.line_count)).sum
      symbols := totalSymbols
      errors := errors }

/-- Did this file parse successfully? -/
def entryOk : FileEntry → Bool
  | (_, .ok _) => true
  | (_, .error _) => false

/-- The successfully parsed files, in walk order. -/
def okFiles (files : List FileEntry) : List ParsedFile :=
  files.filterMap (fun f => match f.2 with | .ok p => some p | .error _ => none)

/-- The failed files with their messages, in walk order. -/
def errEntries (files : List FileEntry) : List (String × String) :=
  files.filterMap (fun f => match f.2 with | .error e => some (f.1, e) | .ok _ => none)

/-! ### Relevance search, from src/cli/search.rs

search_codebase re-reads every file from disk
(fs::read_to_string(&file.path).unwrap_or_default()); that read is modelled
by pairing each ParsedFile with the current content the read returns (the
empty string on a read error).  A panicking slice is modelled by `none`. -/

/-- Match-type tags (src/cli/search.rs, enum MatchType). -/
inductive MatchType where
  | ExactName
  | PartialName
  | ContentMatch
  | ContextMatch
deriving DecidableEq, Repr

/-- Search result with relevance score (src/cli/search.rs, struct SearchResult). -/
structure SearchResult where
  file_path : String
  symbol_name : String
  symbol_kind : SymbolKind
  line_start : Nat
  line_end : Nat
  signature : Option String
  context : String
  score : ℚ
  match_type : MatchType
deriving DecidableEq, Repr

/-- Numerator (over denominator 20) of the kind multiplier applied at
src/cli/search.rs lines 153-159: ×1.2 for functions, ×1.15 for
structs/classes, ×1.1 for traits/interfaces, ×1.0 otherwise. -/
def boostNum : SymbolKind → Nat
  | .Function => 24
  | .Struct => 23
  | .Class => 23
  | .Trait => 22
  | .Interface => 22
  | _ => 20

/-- Apply the kind multiplier to an (integer-valued) base score.  All base
scores are integers and all multipliers are multiples of 1/20, so the f64
product is modelled by the exact rational (base · boostNum k) / 20. -/
def boost (base : Nat) (k : SymbolKind) : ℚ := fastMkRat (base * boostNum k) 20

/-- Scoring flow of the loop body in search_codebase (src/cli/search.rs
lines 101-151), up to but excluding the kind multiplier: the base score and
match type for one symbol.  `none` models the panic of the context slice. -/
def symbolBase (queryLower : String) (queryWords : List String) (lines : List String)
    (sym : Symbol) : Option (Nat × MatchType) :=
  let symbolLower := lowerStr sym.name
  let (score, mt) :=
    if symbolLower = queryLower then (100, MatchType.ExactName)
    else if strContains symbolLower queryLower || strContains queryLower symbolLower then
      (80, MatchType.PartialName)
    else
      let wordMatches := queryWords.countP (fun w => strContains symbolLower w)
      if wordMatches > 0 then (50 + wordMatches * 10, MatchType.PartialName)
      else (0, MatchType.ContextMatch)
  if score = 0 then
    match sliceJoin lines (sym.line_start - 1) (min sym.line_end lines.length) with
    | none => none
    | some ctx =>
      let contextLines := lowerStr ctx
      if strContains contextLines queryLower then some (30, MatchType.ContentMatch)
      else
        let contextWordMatches := queryWords.countP (fun w => strContains contextLines w)
        if contextWordMatches > 0 then some (20 + contextWordMatches * 5, MatchType.ContextMatch)
        else some (0, mt)
  else some (score, mt)

/-- Remainder of the loop body (src/cli/search.rs lines 153-178): kind
multiplier, the score > 0 filter, and result construction with the
three-line display context. -/
def symbolResult (filePath : String) (lines : List String) (queryLower : String)
    (queryWords : List String) (sym : Symbol) : Option (Option SearchResult) :=
  match symbolBase queryLower queryWords lines sym with
  | none => none
  | some (base, mt) =>
    let score := boost base sym.kind
    if 0 < score then
      match sliceJoin lines (sym.line_start - 1) (min (sym.line_start + 2) lines.length) with
      | none => none
      | some context =>
        some (some { file_path := filePath, symbol_name := sym.name, symbol_kind := sym.kind,
                     line_start := sym.line_start, line_end := sym.line_end,
                     signature := sym.signature, context, score, match_type := mt })
    else some none

/-- Inner loop of search_codebase over one file's symbols. -/
def symbolsResults (filePath : String) (lines : List String) (queryLower : String)
    (queryWords : List String) : List Symbol → Option (List SearchResult)
  | [] => some []
  | s :: ss =>
    match symbolResult filePath lines queryLower queryWords s with
    | none => none
    | some r =>
      match symbolsResults filePath lines queryLower queryWords ss with
      | none => none
      | some rest => some (r.toList ++ rest)

/-- Outer loop of search_codebase over the corpus. -/
def filesResults (queryLower : String) (queryWords : List String) :
    List (ParsedFile × String) → Option (List SearchResult)
  | [] => some []
  | (f, current) :: fs =>
    match symbolsResults f.path (rustLines current) queryLower queryWords f.symbols with
    | none => none
    | some rs =>
      match filesResults queryLower queryWords fs with
      | none => none
      | some rest => some (rs ++ rest)

/-- Stable insertion of one element under the boolean "may stay before"
relation. -/
def insertBy (le : α → α → Bool) (a : α) : List α → List α
  | [] => [a]
  | b :: l => if le a b then a :: b :: l else b :: insertBy le a l

/-- Stable sort (model of Vec::sort_by, which is stable; a stable sort is
determined uniquely by the comparator, so insertion sort is a faithful
model). -/
def sortBy (le : α → α → Bool) : List α → List α
  | [] => []
  | a :: l => insertBy le a (sortBy le l)

/-- Comparator of src/cli/search.rs line 183:
b.score.partial_cmp(&a.score) — `a` may stay before `b` exactly when
b.score ≤ a.score (descending by score; ℚ has no NaN, so the
unwrap_or(Equal) default is never taken in the model). -/
def scoreDesc (a b : SearchResult) : Bool := decide (b.score ≤ a.score)

/-- Model of search_codebase (src/cli/search.rs lines 89-189). -/
def search_codebase (files : List (ParsedFile × String)) (query : String) (limit : Nat) :
    Option (List SearchResult) :=
  let queryLower := lowerStr query
  let queryWords := splitWs queryLower
  match filesResults queryLower queryWords files with
  | none => none
  | some rs => some ((sortBy scoreDesc rs).take limit)

/-! ### Keyword extraction of the ask command, from src/cli/ask.rs -/

/-- Model of the keyword extraction in build_context (src/cli/ask.rs):
question_lower.split_whitespace().filter(|w| w.len() > 2).  Lengths are
char counts (byte counts in Rust; identical on ASCII). -/
def build_keywords (question : String) : List String :=
  (splitWs (lowerStr question)).filter (fun w => w.length > 2)

/-- Model of the per-symbol relevance test in build_context (src/cli/ask.rs):
keywords.iter().any(|kw| symbol_lower.contains(kw) || kw.contains(&symbol_lower)). -/
def is_relevant (keywords : List String) (symbolLower : String) : Bool :=
  keywords.any (fun kw => strContains symbolLower kw || strContains kw symbolLower)

/-- Model of the relevant-symbol collection loop in build_context
(src/cli/ask.rs): every (file, symbol) pair whose lowered name passes
is_relevant, in corpus order. -/
def relevant_symbols (files : List ParsedFile) (question : String) :
    List (ParsedFile × Symbol) :=
  (files.map (fun f =>
    (f.symbols.filter (fun s => is_relevant (build_keywords question) (lowerStr s.name))).map
      (fun s => (f, s)))).flatten

/-! ### Context budgeting, from src/ai/context.rs -/

/-- Represents a piece of context (src/ai/context.rs, struct ContextChunk).
The f32 relevance is modelled as an exact rational. -/
structure ContextChunk where
  source : String
  content : String
  relevance : ℚ
  token_count : Nat
deriving DecidableEq, Repr

/-- Context manager (src/ai/context.rs, struct ContextManager). -/
structure ContextManager where
  max_tokens : Nat
  chunks : List ContextChunk
deriving DecidableEq, Repr

/-- Comparator of ContextManager::add_chunk's sort_by (src/ai/context.rs
line 37): descending by relevance; the unwrap() panic on NaN cannot occur
in the rational model. -/
def relevanceDesc (a b : ContextChunk) : Bool := decide (b.relevance ≤ a.relevance)

/-- Model of ContextManager::add_chunk (src/ai/context.rs lines 34-38):
push, then stable-sort by descending relevance. -/
def add_chunk (m : ContextManager) (c : ContextChunk) : ContextManager :=
  { m with chunks := sortBy relevanceDesc (m.chunks ++ [c]) }

/-- Rendering of one chunk by build_context (src/ai/context.rs lines 49-51):
format!("\n// Source: \x7b:?\x7d\n", chunk.source) Debug-quotes the path;
paths are modelled as plain strings, without escape sequences. -/
def fmtChunk (c : ContextChunk) : String :=
  "\n// Source: \"" ++ c.source ++ "\"\n" ++ c.content ++ "\n"

/-- Loop of ContextManager::build_context (src/ai/context.rs lines 41-56):
the running result is the concatenation of the chunks accepted before the
first break. -/
def buildLoop (maxTokens : Nat) : List ContextChunk → Nat → String
  | [], _ => ""
  | c :: cs, used =>
    if used + c.token_count > maxTokens then ""
    else fmtChunk c ++ buildLoop maxTokens cs (used + c.token_count)

/-- Model of ContextManager::build_context (src/ai/context.rs lines 41-56). -/
def build_context (m : ContextManager) : String := buildLoop m.max_tokens m.chunks 0

/-- Model of ContextManager::estimate_tokens (src/ai/context.rs lines 59-61). -/
def estimate_tokens (text : String) : Nat := text.length / 4

/-! ### Specification-side definitions

These follow the wording of the specification (spec.md §4.5 Relevance
Search Engine and §4.6 Context Budgeter), to be compared with the
source-derived definitions above. -/

/-- Kind multiplier as worded in the spec: Function ×1.2, Struct/Class
×1.15, Trait/Interface ×1.1, all others ×1.0. -/
def kindMult : SymbolKind → ℚ
  | .Function => 1.2
  | .Struct => 1.15
  | .Class => 1.15
  | .Trait => 1.1
  | .Interface => 1.1
  | _ => 1

/-- Scoring tiers as worded in the claim: first matching tier in priority
order, each base score multiplied by the kind multiplier; `some none`
means the symbol is dropped (score 0); `none` models the panic of the
line-span extraction. -/
def specSymbolScore (queryLower : String) (queryWords : List String) (lines : List String)
    (sym : Symbol) : Option (Option (ℚ × MatchType)) :=
  let nameL := lowerStr sym.name
  if nameL = queryLower then
    some (some (100 * kindMult sym.kind, MatchType.ExactName))
  else if strContains nameL queryLower || strContains queryLower nameL then
    some (some (80 * kindMult sym.kind, MatchType.PartialName))
  else
    let wordCount := queryWords.countP (fun w => strContains nameL w)
    if 1 ≤ wordCount then
      some (some (((50 + 10 * wordCount : Nat) : ℚ) * kindMult sym.kind, MatchType.PartialName))
    else
      match sliceJoin lines (sym.line_start - 1) (min sym.line_end lines.length) with
      | none => none
      | some span =>
        if strContains (lowerStr span) queryLower then
          some (some (30 * kindMult sym.kind, MatchType.ContentMatch))
        else
          let occCount := queryWords.countP (fun w => strContains (lowerStr span) w)
          if 1 ≤ occCount then
            some (some (((20 + 5 * occCount : Nat) : ℚ) * kindMult sym.kind, MatchType.ContextMatch))
          else some none

/-- Spec-side per-symbol result: the tier score paired with the result
record the search returns (record assembly as in the source, which the
claim does not constrain). -/
def specSymbolResult (filePath : String) (lines : List String) (queryLower : String)
    (queryWords : List String) (sym : Symbol) : Option (Option SearchResult) :=
  match specSymbolScore queryLower queryWords lines sym with
  | none => none
  | some none => some none
  | some (some (score, mt)) =>
    match sliceJoin lines (sym.line_start - 1) (min (sym.line_start + 2) lines.length) with
    | none => none
    | some context =>
      some (some { file_path := filePath, symbol_name := sym.name, symbol_kind := sym.kind,
                   line_start := sym.line_start, line_end := sym.line_end,
                   signature := sym.signature, context, score, match_type := mt })

/-- Spec-side inner loop over one file's symbols. -/
def specSymbolsResults (filePath : String) (lines : List String) (queryLower : String)
    (queryWords : List String) : List Symbol → Option (List SearchResult)
  | [] => some []
  | s :: ss =>
    match specSymbolResult filePath lines queryLower queryWords s with
    | none => none
    | some r =>
      match specSymbolsResults filePath lines queryLower queryWords ss with
      | none => none
      | some rest => some (r.toList ++ rest)

/-- Spec-side outer loop over the corpus. -/
def specFilesResults (queryLower : String) (queryWords : List String) :
    List (ParsedFile × String) → Option (List SearchResult)
  | [] => some []
  | (f, current) :: fs =>
    match specSymbolsResults f.path (rustLines current) queryLower queryWords f.symbols with
    | none => none
    | some rs =>
      match specFilesResults queryLower queryWords fs with
      | none => none
      | some rest => some (rs ++ rest)

/-- Search as worded in the claim: score by tiers, drop zero scores, sort
in descending final score, truncate to the limit. -/
def spec_search (files : List (ParsedFile × String)) (query : String) (limit : Nat) :
    Option (List SearchResult) :=
  let queryLower := lowerStr query
  let queryWords := splitWs queryLower
  match specFilesResults queryLower queryWords files with
  | none => none
  | some rs => some ((sortBy scoreDesc rs).take limit)

/-- Chunks accepted by the budgeter as worded in the spec: accumulate in
the order given, keep a chunk only when the running total plus its
estimate stays within the budget, and stop at the first chunk that would
exceed it. -/
def spec_included (maxTokens : Nat) : List ContextChunk → Nat → List ContextChunk
  | [], _ => []
  | c :: cs, used =>
    if used + c.token_count ≤ maxTokens then c :: spec_included maxTokens cs (used + c.token_count)
    else []

/-- Concatenation of the rendered texts of a chunk list. -/
def concatChunks : List ContextChunk → String
  | [] => ""
  | c :: cs => fmtChunk c ++ concatChunks cs

/-! ### Concrete fixtures used by counterexamples and witnesses -/

/-- Corpus for the C4 counterexample: a module named "xab" whose context
does not mention the query words. -/
def pf4cex : ParsedFile :=
  { path := "a.rs", language := .Rust, content := "", line_count := 1,
    symbols := [{ name := "xab", kind := .Module, line_start := 1, line_end := 1,
                  signature := none }] }

/-- Corpus for the C5 counterexample: a module that matches one query word
by name, and a function whose two-line context contains all nine query
words. -/
def pf5cex : ParsedFile :=
  { path := "b.rs", language := .Rust, content := "", line_count := 3,
    symbols := [{ name := "aaamod", kind := .Module, line_start := 1, line_end := 1,
                  signature := none },
                { name := "zzz", kind := .Function, line_start := 2, line_end := 3,
                  signature := none }] }

/-- Current content of pf5cex's file: the nine query words spread over two
lines, so the full query never appears verbatim. -/
def cur5cex : String := "hello\naaa bbb ccc ddd eee\nfff ggg hhh iii"

/-- Corpus for the C5 witness: same shape with a two-word query. -/
def pf5w : ParsedFile :=
  { path := "d.rs", language := .Rust, content := "", line_count := 2,
    symbols := [{ name := "aaamod", kind := .Module, line_start := 1, line_end := 1,
                  signature := none },
                { name := "zzz", kind := .Function, line_start := 2, line_end := 2,
                  signature := none }] }

/-- Expected PartialName result of the C5 witness search. -/
def w5nameRes : SearchResult :=
  { file_path := "d.rs", symbol_name := "aaamod", symbol_kind := .Module,
    line_start := 1, line_end := 1, signature := none, context := "hello\naaa bbb",
    score := 60, match_type := .PartialName }

/-- Expected ContentMatch result of the C5 witness search. -/
def w5ctxRes : SearchResult :=
  { file_path := "d.rs", symbol_name := "zzz", symbol_kind := .Function,
    line_start := 2, line_end := 2, signature := none, context := "aaa bbb",
    score := 36, match_type := .ContentMatch }

/-- Corpus for C6: a symbol whose recorded span (lines 3-3) lies beyond the
current one-line content of its file. -/
def pf6cex : ParsedFile :=
  { path := "c.rs", language := .Rust, content := "", line_count := 3,
    symbols := [{ name := "zzz", kind := .Function, line_start := 3, line_end := 3,
                  signature := none }] }

/-- Python tree with a single class for the C7 counterexample. -/
def t7class : TsNode :=
  .mk "module" 0 1 "class Foo:\n    pass" none none
    [.mk "class_definition" 0 1 "class Foo:\n    pass" (some "Foo") none []]

/-- Python tree with a single function for the C7 witness. -/
def t7fun : TsNode :=
  .mk "module" 0 1 "def foo():\n    pass" none none
    [.mk "function_definition" 0 1 "def foo():\n    pass" (some "foo") none []]

/-- Symbol extracted from t7fun. -/
def sym7 : Symbol :=
  { name := "foo", kind := .Function, line_start := 1, line_end := 2,
    signature := some "def foo():" }

/-- Rust tree for the C9 witness. -/
def t9 : TsNode :=
  .mk "source_file" 0 2 "fn main()\nx\ny" none none
    [.mk "function_item" 0 1 "fn main()\nx" (some "main") none []]

/-- Symbol extracted from t9. -/
def sym9 : Symbol :=
  { name := "main", kind := .Function, line_start := 1, line_end := 2,
    signature := some "fn main()" }

/-- Chunks of token estimate 10 for the C8 concrete scenario. -/
def c8a : ContextChunk := { source := "a.rs", content := "AAA", relevance := 1, token_count := 10 }

/-- Second chunk for C8. -/
def c8b : ContextChunk := { source := "b.rs", content := "BBB", relevance := 1, token_count := 10 }

/-- Third chunk for C8; it would exceed the budget of 25. -/
def c8c : ContextChunk := { source := "c.rs", content := "CCC", relevance := 1, token_count := 10 }

/-- A parseable file for the C1 fixtures. -/
def cexC1good : ParsedFile :=
  { path := "good.rs", language := .Rust, content := "fn f()", symbols := [],
    line_count := 1 }

/-- One parseable and one malformed file, in this walk order. -/
def cexC1 : List FileEntry :=
  [("good.rs", Except.ok cexC1good), ("bad.rs", Except.error "Tree-sitter parsing failed")]

/-- The same two files in the opposite walk order. -/
def cexC1rev : List FileEntry :=
  [("bad.rs", Except.error "Tree-sitter parsing failed"), ("good.rs", Except.ok cexC1good)]

/-- A TypeScript file whose only symbol is a type alias. -/
def cexC2pf : ParsedFile :=
  { path := "t.ts", language := .TypeScript, content := "type A = number;",
    symbols := [{ name := "A", kind := .TypeAlias, line_start := 1, line_end := 1,
                  signature := none }],
    line_count := 1 }

/-- Indexing input for the C2 failing input. -/
def cexC2 : List FileEntry := [("t.ts", Except.ok cexC2pf)]

/-! ### Value of the fast rational constructor -/

theorem fastMkRat_eq_div (n d : Nat) (hd : d ≠ 0) : fastMkRat n d = (n : ℚ) / d := by
  rw [fastMkRat, dif_neg hd]
  have hgpos : 0 < Nat.gcd n d := Nat.gcd_pos_of_pos_right _ (Nat.pos_of_ne_zero hd)
  have hdvd_n : Nat.gcd n d ∣ n := Nat.gcd_dvd_left n d
  have hdvd_d : Nat.gcd n d ∣ d := Nat.gcd_dvd_right n d
  rw [Rat.mk'_eq_divInt, Rat.divInt_eq_div]
  push_cast [fastGcd_eq, Nat.cast_div hdvd_n, Nat.cast_div hdvd_d]
  have hgQ : (Nat.gcd n d : ℚ) ≠ 0 := by positivity
  have hdQ : (d : ℚ) ≠ 0 := Nat.cast_ne_zero.mpr hd
  field_simp

/-! ### Helper lemmas about the stable sort -/

theorem mem_insertBy {α : Type} (le : α → α → Bool) (a x : α) (l : List α) :
    x ∈ insertBy le a l ↔ x = a ∨ x ∈ l := by
  induction l with
  | nil => simp [insertBy]
  | cons b t ih =>
    by_cases h : le a b
    · simp [insertBy, h, List.mem_cons]
    · simp only [insertBy, h, Bool.false_eq_true, if_false, List.mem_cons, ih]
      tauto

theorem pairwise_insertBy {α : Type} {le : α → α → Bool}
    (total : ∀ a b, le a b = true ∨ le b a = true)
    (trans : ∀ a b c, le a b = true → le b c = true → le a c = true)
    (a : α) (l : List α) (h : l.Pairwise (fun x y => le x y = true)) :
    (insertBy le a l).Pairwise (fun x y => le x y = true) := by
  induction l with
  | nil => simp [insertBy]
  | cons b t ih =>
    rcases List.pairwise_cons.mp h with ⟨hb, ht⟩
    by_cases hab : le a b
    · rw [insertBy, if_pos hab]
      refine List.pairwise_cons.mpr ⟨?_, h⟩
      intro x hx
      rcases List.mem_cons.mp hx with rfl | hx
      · exact hab
      · exact trans a b x hab (hb x hx)
    · rw [insertBy, if_neg hab]
      refine List.pairwise_cons.mpr ⟨?_, ih ht⟩
      intro x hx
      rcases (mem_insertBy le a x t).mp hx with rfl | hx
      · rcases total x b with h1 | h1
        · exact absurd h1 hab
        · exact h1
      · exact hb x hx

theorem pairwise_sortBy {α : Type} {le : α → α → Bool}
    (total : ∀ a b, le a b = true ∨ le b a = true)
    (trans : ∀ a b c, le a b = true → le b c = true → le a c = true)
    (l : List α) : (sortBy le l).Pairwise (fun x y => le x y = true) := by
  induction l with
  | nil => simp [sortBy]
  | cons a t ih => exact pairwise_insertBy total trans a _ ih

theorem mem_sortBy {α : Type} (le : α → α → Bool) (x : α) (l : List α) :
    x ∈ sortBy le l ↔ x ∈ l := by
  induction l with
  | nil => simp [sortBy]
  | cons a t ih => simp [sortBy, mem_insertBy, ih, List.mem_cons]

/-! ### Helper lemmas about the score arithmetic -/

theorem boost_eq (base : Nat) (k : SymbolKind) : boost base k = (base : ℚ) * kindMult k := by
  cases k <;>
    (rw [boost, fastMkRat_eq_div _ _ (by norm_num)]; push_cast;
      norm_num [boostNum, kindMult]; try ring)

theorem one_le_kindMult (k : SymbolKind) : 1 ≤ kindMult k := by
  cases k <;> norm_num [kindMult]

theorem kindMult_le (k : SymbolKind) : kindMult k ≤ 6 / 5 := by
  cases k <;> norm_num [kindMult]

theorem kindMult_pos (k : SymbolKind) : 0 < kindMult k :=
  lt_of_lt_of_le one_pos (one_le_kindMult k)

theorem boost_pos_iff (base : Nat) (k : SymbolKind) : 0 < boost base k ↔ 0 < base := by
  rw [boost_eq]
  constructor
  · intro h
    rcases Nat.eq_zero_or_pos base with rfl | hpos
    · simp at h
    · exact hpos
  · intro h
    have hb : (0 : ℚ) < base := by exact_mod_cast h
    exact mul_pos hb (kindMult_pos k)

/-! ### Equivalence of the search scoring flow with the spec's tier description -/

theorem symbolResult_eq_spec (fp : String) (lines : List String) (qL : String)
    (qW : List String) (s : Symbol) :
    symbolResult fp lines qL qW s = specSymbolResult fp lines qL qW s := by
  rw [symbolResult, specSymbolResult, symbolBase, specSymbolScore]
  by_cases c1 : lowerStr s.name = qL
  · have hpos : 0 < boost 100 s.kind := (boost_pos_iff 100 s.kind).mpr (by norm_num)
    simp only [if_pos c1, if_neg (by decide : ¬(100 = 0)), if_pos hpos,
      boost_eq, Nat.cast_ofNat]
    exact if_pos (mul_pos (by norm_num) (kindMult_pos s.kind))
  · by_cases c2 : (strContains (lowerStr s.name) qL || strContains qL (lowerStr s.name)) = true
    · have hpos : 0 < boost 80 s.kind := (boost_pos_iff 80 s.kind).mpr (by norm_num)
      simp only [if_neg c1, if_pos c2, if_neg (by decide : ¬(80 = 0)), if_pos hpos,
        boost_eq, Nat.cast_ofNat]
      exact if_pos (mul_pos (by norm_num) (kindMult_pos s.kind))
    · by_cases hw : 0 < qW.countP (fun w => strContains (lowerStr s.name) w)
      · have hw1 : 1 ≤ qW.countP (fun w => strContains (lowerStr s.name) w) := hw
        have hpos : 0 < boost (50 + qW.countP (fun w => strContains (lowerStr s.name) w) * 10) s.kind :=
          (boost_pos_iff _ s.kind).mpr (by omega)
        have harith : (50 + qW.countP (fun w => strContains (lowerStr s.name) w) * 10 : Nat) =
            50 + 10 * qW.countP (fun w => strContains (lowerStr s.name) w) := by omega
        simp only [if_neg c1, if_neg c2, if_pos hw, if_pos hw1, if_true,
          if_neg (by omega : ¬(50 + qW.countP (fun w => strContains (lowerStr s.name) w) * 10 = 0))]
        rw [if_pos hpos]
        simp only [boost_eq, harith]
      · have hwz : ¬(1 ≤ qW.countP (fun w => strContains (lowerStr s.name) w)) := by omega
        simp only [if_neg c1, if_neg c2, if_neg hw, if_neg hwz, if_pos rfl]
        cases hslice : sliceJoin lines (s.line_start - 1) (min s.line_end lines.length) with
        | none => rfl
        | some ctx =>
          by_cases c3 : strContains (lowerStr ctx) qL = true
          · have hpos : 0 < boost 30 s.kind := (boost_pos_iff 30 s.kind).mpr (by norm_num)
            simp only [if_pos c3, if_pos hpos, boost_eq, Nat.cast_ofNat]
            exact if_pos (mul_pos (by norm_num) (kindMult_pos s.kind))
          · by_cases hc : 0 < qW.countP (fun w => strContains (lowerStr ctx) w)
            · have hc1 : 1 ≤ qW.countP (fun w => strContains (lowerStr ctx) w) := hc
              have hpos : 0 < boost (20 + qW.countP (fun w => strContains (lowerStr ctx) w) * 5) s.kind :=
                (boost_pos_iff _ s.kind).mpr (by omega)
              have harith : (20 + qW.countP (fun w => strContains (lowerStr ctx) w) * 5 : Nat) =
                  20 + 5 * qW.countP (fun w => strContains (lowerStr ctx) w) := by omega
              simp only [if_neg c3, if_pos hc, if_pos hc1, if_true]
              rw [if_pos hpos]
              simp only [boost_eq, harith]
            · have hcz : ¬(1 ≤ qW.countP (fun w => strContains (lowerStr ctx) w)) := by omega
              have hnotpos : ¬(0 < boost 0 s.kind) := by
                rw [boost_pos_iff]
                omega
              simp only [if_neg c3, if_neg hc, if_neg hcz, if_true, if_neg hnotpos]

theorem symbolsResults_eq_spec (fp : String) (lines : List String) (qL : String)
    (qW : List String) : ∀ ss : List Symbol,
    symbolsResults fp lines qL qW ss = specSymbolsResults fp lines qL qW ss := by
  intro ss
  induction ss with
  | nil => rfl
  | cons s t ih =>
    rw [symbolsResults, specSymbolsResults, symbolResult_eq_spec, ih]

theorem filesResults_eq_spec (qL : String) (qW : List String) :
    ∀ fs : List (ParsedFile × String),
    filesResults qL qW fs = specFilesResults qL qW fs := by
  intro fs
  induction fs with
  | nil => rfl
  | cons head t ih =>
    obtain ⟨f, cur⟩ := head
    rw [filesResults, specFilesResults, symbolsResults_eq_spec, ih]

/-! ### Characterization of search results -/

theorem mem_symbolsResults {fp : String} {lines : List String} {qL : String}
    {qW : List String} : ∀ {ss : List Symbol} {rs : List SearchResult} {r : SearchResult},
    symbolsResults fp lines qL qW ss = some rs → r ∈ rs →
    ∃ s ∈ ss, symbolResult fp lines qL qW s = some (some r) := by
  intro ss
  induction ss with
  | nil =>
    intro rs r h hr
    rw [symbolsResults] at h
    cases h
    cases hr
  | cons s t ih =>
    intro rs r h hr
    rw [symbolsResults] at h
    cases h1 : symbolResult fp lines qL qW s with
    | none => rw [h1] at h; cases h
    | some ro =>
      rw [h1] at h
      cases h2 : symbolsResults fp lines qL qW t with
      | none => rw [h2] at h; cases h
      | some rest =>
        rw [h2] at h
        cases h
        rcases List.mem_append.mp hr with hmem | hmem
        · cases ro with
          | none => cases hmem
          | some x =>
            rcases List.mem_singleton.mp hmem with rfl
            exact ⟨s, List.mem_cons_self s t, h1⟩
        · rcases ih h2 hmem with ⟨s', hs', hres⟩
          exact ⟨s', List.mem_cons_of_mem s hs', hres⟩

theorem mem_filesResults {qL : String} {qW : List String} :
    ∀ {fs : List (ParsedFile × String)} {rs : List SearchResult} {r : SearchResult},
    filesResults qL qW fs = some rs → r ∈ rs →
    ∃ f cur, (f, cur) ∈ fs ∧
      ∃ s ∈ f.symbols, symbolResult f.path (rustLines cur) qL qW s = some (some r) := by
  intro fs
  induction fs with
  | nil =>
    intro rs r h hr
    rw [filesResults] at h
    cases h
    cases hr
  | cons head t ih =>
    obtain ⟨f, cur⟩ := head
    intro rs r h hr
    rw [filesResults] at h
    cases h1 : symbolsResults f.path (rustLines cur) qL qW f.symbols with
    | none => rw [h1] at h; cases h
    | some rs1 =>
      rw [h1] at h
      cases h2 : filesResults qL qW t with
      | none => rw [h2] at h; cases h
      | some rest =>
        rw [h2] at h
        cases h
        rcases List.mem_append.mp hr with hmem | hmem
        · rcases mem_symbolsResults h1 hmem with ⟨s, hs, hres⟩
          exact ⟨f, cur, List.mem_cons_self _ t, s, hs, hres⟩
        · rcases ih h2 hmem with ⟨f', cur', hf', s, hs, hres⟩
          exact ⟨f', cur', List.mem_cons_of_mem _ hf', s, hs, hres⟩

theorem mem_search {files : List (ParsedFile × String)} {query : String} {limit : Nat}
    {rs : List SearchResult} {r : SearchResult}
    (h : search_codebase files query limit = some rs) (hr : r ∈ rs) :
    ∃ f cur, (f, cur) ∈ files ∧
      ∃ s ∈ f.symbols,
        symbolResult f.path (rustLines cur) (lowerStr query) (splitWs (lowerStr query)) s =
          some (some r) := by
  rw [search_codebase] at h
  cases h1 : filesResults (lowerStr query) (splitWs (lowerStr query)) files with
  | none => rw [h1] at h; cases h
  | some all =>
    rw [h1] at h
    cases h
    have hmem : r ∈ sortBy scoreDesc all := List.mem_of_mem_take hr
    exact mem_filesResults h1 ((mem_sortBy scoreDesc r all).mp hmem)

theorem symbolBase_shape {qL : String} {qW : List String} {lines : List String}
    {sym : Symbol} {base : Nat} {mt : MatchType}
    (h : symbolBase qL qW lines sym = some (base, mt)) :
    (base = 100 ∧ mt = MatchType.ExactName) ∨
    (base = 80 ∧ mt = MatchType.PartialName) ∨
    (∃ c, 1 ≤ c ∧ base = 50 + c * 10 ∧ mt = MatchType.PartialName) ∨
    (base = 30 ∧ mt = MatchType.ContentMatch) ∨
    (∃ k, 1 ≤ k ∧ k ≤ qW.length ∧ base = 20 + k * 5 ∧ mt = MatchType.ContextMatch) ∨
    base = 0 := by
  rw [symbolBase] at h
  by_cases c1 : lowerStr sym.name = qL
  · simp only [if_pos c1, if_neg (by decide : ¬((100 : Nat) = 0))] at h
    cases h
    exact Or.inl ⟨rfl, rfl⟩
  · by_cases c2 : (strContains (lowerStr sym.name) qL || strContains qL (lowerStr sym.name)) = true
    · simp only [if_neg c1, if_pos c2, if_neg (by decide : ¬((80 : Nat) = 0))] at h
      cases h
      exact Or.inr (Or.inl ⟨rfl, rfl⟩)
    · by_cases hw : 0 < qW.countP (fun w => strContains (lowerStr sym.name) w)
      · simp only [if_neg c1, if_neg c2, if_pos hw,
          if_neg (by omega : ¬(50 + qW.countP (fun w => strContains (lowerStr sym.name) w) * 10 = 0))] at h
        cases h
        exact Or.inr (Or.inr (Or.inl ⟨_, hw, rfl, rfl⟩))
      · simp only [if_neg c1, if_neg c2, if_neg hw, if_pos rfl, if_true] at h
        cases hslice : sliceJoin lines (sym.line_start - 1) (min sym.line_end lines.length) with
        | none => rw [hslice] at h; cases h
        | some ctx =>
          rw [hslice] at h
          by_cases c3 : strContains (lowerStr ctx) qL = true
          · simp only [if_pos c3] at h
            cases h
            exact Or.inr (Or.inr (Or.inr (Or.inl ⟨rfl, rfl⟩)))
          · by_cases hc : 0 < qW.countP (fun w => strContains (lowerStr ctx) w)
            · simp only [if_neg c3, if_pos hc] at h
              cases h
              exact Or.inr (Or.inr (Or.inr (Or.inr (Or.inl
                ⟨_, hc, List.countP_le_length _, rfl, rfl⟩))))
            · simp only [if_neg c3, if_neg hc] at h
              cases h
              exact Or.inr (Or.inr (Or.inr (Or.inr (Or.inr rfl))))

theorem symbolResult_score {fp : String} {lines : List String} {qL : String}
    {qW : List String} {sym : Symbol} {r : SearchResult}
    (h : symbolResult fp lines qL qW sym = some (some r)) :
    ∃ base mt, symbolBase qL qW lines sym = some (base, mt) ∧ 0 < base ∧
      r.score = boost base sym.kind ∧ r.match_type = mt ∧ r.symbol_kind = sym.kind := by
  rw [symbolResult] at h
  cases hb : symbolBase qL qW lines sym with
  | none => rw [hb] at h; cases h
  | some p =>
    obtain ⟨base, mt⟩ := p
    rw [hb] at h
    by_cases hpos : 0 < boost base sym.kind
    · simp only [if_pos hpos] at h
      cases hslice : sliceJoin lines (sym.line_start - 1) (min (sym.line_start + 2) lines.length) with
      | none => rw [hslice] at h; cases h
      | some ctx =>
        rw [hslice] at h
        cases h
        exact ⟨base, mt, rfl, (boost_pos_iff base sym.kind).mp hpos, rfl, rfl, rfl⟩
    · simp only [if_neg hpos] at h
      cases h

theorem result_score_bounds {fp : String} {lines : List String} {qL : String}
    {qW : List String} {sym : Symbol} {r : SearchResult}
    (h : symbolResult fp lines qL qW sym = some (some r)) :
    ((r.match_type = MatchType.ExactName ∨ r.match_type = MatchType.PartialName) →
      60 ≤ r.score) ∧
    (r.match_type = MatchType.ContentMatch → r.score ≤ 36) ∧
    (r.match_type = MatchType.ContextMatch →
      r.score ≤ ((20 + 5 * qW.length : Nat) : ℚ) * (6 / 5)) := by
  rcases symbolResult_score h with ⟨base, mt, hb, hbasepos, hscore, hmt, hkind⟩
  have hml := one_le_kindMult sym.kind
  have hmu := kindMult_le sym.kind
  have hm0 : 0 ≤ kindMult sym.kind := le_of_lt (kindMult_pos sym.kind)
  have hshape := symbolBase_shape hb
  rw [hscore, boost_eq]
  rcases hshape with ⟨rfl, rfl⟩ | ⟨rfl, rfl⟩ | ⟨c, hc1, rfl, rfl⟩ | ⟨rfl, rfl⟩ |
    ⟨k, hk1, hk2, rfl, rfl⟩ | rfl
  · refine ⟨fun _ => ?_, fun hx => ?_, fun hx => ?_⟩
    · push_cast
      nlinarith
    · rw [hmt] at hx; cases hx
    · rw [hmt] at hx; cases hx
  · refine ⟨fun _ => ?_, fun hx => ?_, fun hx => ?_⟩
    · push_cast
      nlinarith
    · rw [hmt] at hx; cases hx
    · rw [hmt] at hx; cases hx
  · refine ⟨fun _ => ?_, fun hx => ?_, fun hx => ?_⟩
    · have h60 : (60 : ℚ) ≤ ((50 + c * 10 : Nat) : ℚ) := by
        exact_mod_cast (by omega : 60 ≤ 50 + c * 10)
      nlinarith
    · rw [hmt] at hx; cases hx
    · rw [hmt] at hx; cases hx
  · refine ⟨fun hx => ?_, fun _ => ?_, fun hx => ?_⟩
    · rw [hmt] at hx
      rcases hx with hx | hx <;> cases hx
    · push_cast
      nlinarith
    · rw [hmt] at hx; cases hx
  · refine ⟨fun hx => ?_, fun hx => ?_, fun _ => ?_⟩
    · rw [hmt] at hx
      rcases hx with hx | hx <;> cases hx
    · rw [hmt] at hx; cases hx
    · have h1 : ((20 + k * 5 : Nat) : ℚ) ≤ ((20 + 5 * qW.length : Nat) : ℚ) := by
        exact_mod_cast (by omega : 20 + k * 5 ≤ 20 + 5 * qW.length)
      have h2 : (0 : ℚ) ≤ ((20 + k * 5 : Nat) : ℚ) := by positivity
      have h3 : (0 : ℚ) ≤ ((20 + 5 * qW.length : Nat) : ℚ) := by positivity
      exact mul_le_mul h1 hmu hm0 h3
  · exact absurd hbasepos (by omega)

/-! ### Lemmas about the tree walk -/

mutual

theorem mem_walk_tree_reaches (lang : Language) (sym : Symbol) :
    ∀ n : TsNode, sym ∈ walk_tree lang n →
      ∃ m, Reaches n m ∧ sym ∈ ownSymbols lang m
  | .mk k s e txt nm ty cs, h => by
    rw [walk_tree] at h
    rcases List.mem_append.mp h with h1 | h2
    · exact ⟨_, Reaches.refl _, h1⟩
    · rcases mem_walkChildren_reaches lang sym cs h2 with ⟨c, hc, m, hr, hm⟩
      exact ⟨m, Reaches.child hc hr, hm⟩

theorem mem_walkChildren_reaches (lang : Language) (sym : Symbol) :
    ∀ cs : List TsNode, sym ∈ walkChildren lang cs →
      ∃ c ∈ cs, ∃ m, Reaches c m ∧ sym ∈ ownSymbols lang m
  | [], h => by rw [walkChildren] at h; cases h
  | c :: cs, h => by
    rw [walkChildren] at h
    rcases List.mem_append.mp h with h1 | h2
    · rcases mem_walk_tree_reaches lang sym c h1 with ⟨m, hr, hm⟩
      exact ⟨c, List.mem_cons_self c cs, m, hr, hm⟩
    · rcases mem_walkChildren_reaches lang sym cs h2 with ⟨d, hd, m, hr, hm⟩
      exact ⟨d, List.mem_cons_of_mem c hd, m, hr, hm⟩

end

theorem wf_children {n c : TsNode} (hw : Wf n) (hc : c ∈ n.children) : Wf c := by
  cases hw with
  | mk hse hwc hce => exact hwc c hc

theorem wf_children_end {n c : TsNode} (hw : Wf n) (hc : c ∈ n.children) :
    c.endRow ≤ n.endRow := by
  cases hw with
  | mk hse hwc hce => exact hce c hc

theorem wf_span {n : TsNode} (hw : Wf n) : n.startRow ≤ n.endRow := by
  cases hw with
  | mk hse hwc hce => exact hse

theorem reaches_bounds {n m : TsNode} (hr : Reaches n m) (hw : Wf n) :
    m.startRow ≤ m.endRow ∧ m.endRow ≤ n.endRow := by
  induction hr with
  | refl n => exact ⟨wf_span hw, le_refl _⟩
  | child hc hr ih =>
    rcases ih (wf_children hw hc) with ⟨h1, h2⟩
    exact ⟨h1, le_trans h2 (wf_children_end hw hc)⟩

theorem extract_rust_span {k : String} {s e : Nat} {txt : String} {nm ty : Option String}
    {sym : Symbol} (h : sym ∈ extract_rust_symbol k s e txt nm ty) :
    sym.line_start = s + 1 ∧ sym.line_end = e + 1 := by
  rw [extract_rust_symbol.eq_def] at h
  split_ifs at h <;> (cases nm <;> cases ty <;> simp_all)

theorem extract_python_span {k : String} {s e : Nat} {txt : String} {nm : Option String}
    {sym : Symbol} (h : sym ∈ extract_python_symbol k s e txt nm) :
    sym.line_start = s + 1 ∧ sym.line_end = e + 1 := by
  rw [extract_python_symbol.eq_def] at h
  split_ifs at h <;> (cases nm <;> simp_all)

theorem extract_js_span {k : String} {s e : Nat} {txt : String} {nm : Option String}
    {sym : Symbol} (h : sym ∈ extract_js_symbol k s e txt nm) :
    sym.line_start = s + 1 ∧ sym.line_end = e + 1 := by
  rw [extract_js_symbol.eq_def] at h
  split_ifs at h <;> (cases nm <;> simp_all)

theorem ownSymbols_span {lang : Language} {m : TsNode} {sym : Symbol}
    (h : sym ∈ ownSymbols lang m) :
    sym.line_start = m.startRow + 1 ∧ sym.line_end = m.endRow + 1 := by
  cases lang with
  | Rust => exact extract_rust_span h
  | Python => exact extract_python_span h
  | JavaScript => exact extract_js_span h
  | TypeScript => exact extract_js_span h
  | Unknown => cases h

theorem extract_rust_sig {k : String} {s e : Nat} {txt : String} {nm ty : Option String}
    {sym : Symbol} (h : sym ∈ extract_rust_symbol k s e txt nm ty) :
    (sym.kind = SymbolKind.Function ∧ sym.signature = some (get_signature txt)) ∨
    (sym.kind ≠ SymbolKind.Function ∧ sym.signature = none) := by
  rw [extract_rust_symbol.eq_def] at h
  split_ifs at h <;> (cases nm <;> cases ty <;> simp_all)

theorem extract_python_sig {k : String} {s e : Nat} {txt : String} {nm : Option String}
    {sym : Symbol} (h : sym ∈ extract_python_symbol k s e txt nm) :
    (sym.kind = SymbolKind.Function ∧ sym.signature = some (get_signature txt)) ∨
    (sym.kind ≠ SymbolKind.Function ∧ sym.signature = none) := by
  rw [extract_python_symbol.eq_def] at h
  split_ifs at h <;> (cases nm <;> simp_all)

theorem extract_js_sig {k : String} {s e : Nat} {txt : String} {nm : Option String}
    {sym : Symbol} (h : sym ∈ extract_js_symbol k s e txt nm) :
    (sym.kind = SymbolKind.Function ∧ sym.signature = some (get_signature txt)) ∨
    (sym.kind ≠ SymbolKind.Function ∧ sym.signature = none) := by
  rw [extract_js_symbol.eq_def] at h
  split_ifs at h <;> (cases nm <;> simp_all)

theorem ownSymbols_signature {lang : Language} {m : TsNode} {sym : Symbol}
    (h : sym ∈ ownSymbols lang m) :
    (sym.kind = SymbolKind.Function ∧ sym.signature = some (get_signature m.srcText)) ∨
    (sym.kind ≠ SymbolKind.Function ∧ sym.signature = none) := by
  cases lang with
  | Rust => exact extract_rust_sig h
  | Python => exact extract_python_sig h
  | JavaScript => exact extract_js_sig h
  | TypeScript => exact extract_js_sig h
  | Unknown => cases h

/-! ### Lemmas about the indexing loop -/

theorem okFiles_cons_ok (p : String) (pf : ParsedFile) (t : List FileEntry) :
    okFiles ((p, Except.ok pf) :: t) = pf :: okFiles t := rfl

theorem okFiles_cons_err (p e : String) (t : List FileEntry) :
    okFiles ((p, Except.error e) :: t) = okFiles t := rfl

theorem errEntries_cons_ok (p : String) (pf : ParsedFile) (t : List FileEntry) :
    errEntries ((p, Except.ok pf) :: t) = errEntries t := rfl

theorem errEntries_cons_err (p e : String) (t : List FileEntry) :
    errEntries ((p, Except.error e) :: t) = (p, e) :: errEntries t := rfl

theorem indexLoop_parsed (v : Bool) : ∀ files : List FileEntry,
    (indexLoop v files).1 = okFiles files := by
  intro files
  induction files with
  | nil => rfl
  | cons head t ih =>
    obtain ⟨p, out⟩ := head
    cases out with
    | ok pf => simp [indexLoop, okFiles_cons_ok, ih]
    | error e => simp [indexLoop, okFiles_cons_err, ih]

theorem indexLoop_errors (v : Bool) : ∀ files : List FileEntry,
    (indexLoop v files).2.1 = if v then errEntries files else [] := by
  intro files
  induction files with
  | nil => cases v <;> rfl
  | cons head t ih =>
    obtain ⟨p, out⟩ := head
    cases out with
    | ok pf => simpa [indexLoop, errEntries_cons_ok] using ih
    | error e =>
      cases v with
      | true => simpa [indexLoop, errEntries_cons_err] using ih
      | false => simpa [indexLoop, errEntries_cons_err] using ih

theorem indexLoop_symbols (v : Bool) : ∀ files : List FileEntry,
    (indexLoop v files).2.2.functions =
      ((okFiles files).map (fun p => (symbol_counts p).functions)).sum ∧
    (indexLoop v files).2.2.types =
      ((okFiles files).map (fun p => (symbol_counts p).types)).sum ∧
    (indexLoop v files).2.2.enums =
      ((okFiles files).map (fun p => (symbol_counts p).enums)).sum ∧
    (indexLoop v files).2.2.traits =
      ((okFiles files).map (fun p => (symbol_counts p).traits)).sum ∧
    (indexLoop v files).2.2.modules =
      ((okFiles files).map (fun p => (symbol_counts p).modules)).sum ∧
    (indexLoop v files).2.2.constants =
      ((okFiles files).map (fun p => (symbol_counts p).constants)).sum ∧
    (indexLoop v files).2.2.impls =
      ((okFiles files).map (fun p => (symbol_counts p).impls)).sum ∧
    (indexLoop v files).2.2.type_aliases = 0 := by
  intro files
  induction files with
  | nil => exact ⟨rfl, rfl, rfl, rfl, rfl, rfl, rfl, rfl⟩
  | cons head t ih =>
    obtain ⟨p, out⟩ := head
    obtain ⟨h1, h2, h3, h4, h5, h6, h7, h8⟩ := ih
    cases out with
    | ok pf =>
      refine ⟨?_, ?_, ?_, ?_, ?_, ?_, ?_, ?_⟩ <;>
        (simp [indexLoop, okFiles_cons_ok, h1, h2, h3, h4, h5, h6, h7, h8]; try omega)
    | error e =>
      refine ⟨?_, ?_, ?_, ?_, ?_, ?_, ?_, ?_⟩ <;>
        simp [indexLoop, okFiles_cons_err, h1, h2, h3, h4, h5, h6, h7, h8]

theorem okFiles_length : ∀ files : List FileEntry,
    (okFiles files).length = files.countP entryOk := by
  intro files
  induction files with
  | nil => rfl
  | cons head t ih =>
    obtain ⟨p, out⟩ := head
    cases out with
    | ok pf => simp [okFiles_cons_ok, List.countP_cons, entryOk, ih]
    | error e => simp [okFiles_cons_err, List.countP_cons, entryOk, ih]

theorem errEntries_length : ∀ files : List FileEntry,
    (errEntries files).length = files.countP (fun f => !entryOk f) := by
  intro files
  induction files with
  | nil => rfl
  | cons head t ih =>
    obtain ⟨p, out⟩ := head
    cases out with
    | ok pf => simp [errEntries_cons_ok, List.countP_cons, entryOk, ih]
    | error e => simp [errEntries_cons_err, List.countP_cons, entryOk, ih]

theorem index_directory_fields (v : Bool) (files : List FileEntry) :
    (index_directory v files).files_indexed = files.countP entryOk ∧
    (index_directory v files).files_skipped =
      (if v then errEntries files else []).length ∧
    (index_directory v files).errors = (if v then errEntries files else []) ∧
    (index_directory v files).symbols = (indexLoop v files).2.2 := by
  rw [index_directory]
  by_cases he : files.isEmpty
  · rcases files with _ | ⟨f, t⟩
    · cases v <;> exact ⟨rfl, rfl, rfl, rfl⟩
    · simp at he
  · rw [if_neg he]
    refine ⟨?_, ?_, ?_, rfl⟩
    · show (indexLoop v files).1.length = _
      rw [indexLoop_parsed, okFiles_length]
    · show (indexLoop v files).2.1.length = _
      rw [indexLoop_errors]
    · show (indexLoop v files).2.1 = _
      rw [indexLoop_errors]


/-! ### Lemmas about the context budgeter -/

theorem buildLoop_eq_spec (maxTokens : Nat) : ∀ (cs : List ContextChunk) (used : Nat),
    buildLoop maxTokens cs used = concatChunks (spec_included maxTokens cs used) := by
  intro cs
  induction cs with
  | nil => intro used; rfl
  | cons c t ih =>
    intro used
    by_cases h : used + c.token_count > maxTokens
    · rw [buildLoop, if_pos h, spec_included, if_neg (by omega)]
      rfl
    · rw [buildLoop, if_neg h, spec_included, if_pos (by omega), concatChunks, ih]

theorem spec_included_sublist (maxTokens : Nat) : ∀ (cs : List ContextChunk) (used : Nat),
    List.Sublist (spec_included maxTokens cs used) cs := by
  intro cs
  induction cs with
  | nil => intro used; exact List.Sublist.refl []
  | cons c t ih =>
    intro used
    rw [spec_included]
    by_cases h : used + c.token_count ≤ maxTokens
    · rw [if_pos h]
      exact (ih (used + c.token_count)).cons₂ c
    · rw [if_neg h]
      exact List.nil_sublist _

/-- Well-formedness of the C9 witness tree. -/
theorem t9_wf : Wf t9 := by
  refine Wf.mk (by omega) ?_ ?_ <;> intro c hc <;>
    rcases List.mem_singleton.mp hc with rfl
  · refine Wf.mk (by omega) ?_ ?_ <;> intro c hc <;> cases hc
  · show (1 : Nat) ≤ 2
    omega

/-! ### The claims -/

/-- C1 (corrected): with verbose output enabled, indexing a list of files of
which N parse and M fail yields files_indexed = N, files_skipped = M and one
(path, message) error entry per failed file, independently of the walk
order; each parse failure skips only that file.  With verbose disabled
(the default), malformed files are still excluded and indexing continues,
but files_skipped stays 0 and errors stays empty. -/
theorem claim_C1 (files : List FileEntry) :
    ((index_directory true files).files_indexed = files.countP entryOk ∧
     (index_directory true files).files_skipped = files.countP (fun f => !entryOk f) ∧
     (index_directory true files).errors = errEntries files ∧
     (index_directory true files).errors.length = files.countP (fun f => !entryOk f)) ∧
    (∀ files' : List FileEntry, files.Perm files' →
      (index_directory true files').files_indexed = (index_directory true files).files_indexed ∧
      (index_directory true files').files_skipped = (index_directory true files).files_skipped) ∧
    ((index_directory false files).files_indexed = files.countP entryOk ∧
     (index_directory false files).files_skipped = 0 ∧
     (index_directory false files).errors = []) := by
  obtain ⟨hi, hs, he, _⟩ := index_directory_fields true files
  obtain ⟨hi2, hs2, he2, _⟩ := index_directory_fields false files
  refine ⟨⟨hi, ?_, ?_, ?_⟩, ?_, hi2, ?_, ?_⟩
  · rw [hs, if_pos rfl, errEntries_length]
  · rw [he, if_pos rfl]
  · rw [he, if_pos rfl, errEntries_length]
  · intro files' hp
    obtain ⟨hi', hs', _, _⟩ := index_directory_fields true files'
    constructor
    · rw [hi', hi, hp.countP_eq]
    · rw [hs', hs, if_pos rfl, if_pos rfl, errEntries_length, errEntries_length, hp.countP_eq]
  · rw [hs2]
    rfl
  · rw [he2]
    rfl

/-- C1 witness: the order-independence clause instantiated at a concrete
two-file list and its reversal. -/
theorem claim_C1_witness :
    cexC1.Perm cexC1rev ∧
    (index_directory true cexC1rev).files_indexed = (index_directory true cexC1).files_indexed :=
  have hp : cexC1.Perm cexC1rev := List.Perm.swap _ _ []
  ⟨hp, (((claim_C1 cexC1).2.1) cexC1rev hp).1⟩

/-- C1 counterexample to the claim as stated: with verbose disabled (the
way the index command runs by default), one parseable and one malformed
file yield files_skipped = 0 and no error entries, not files_skipped = 1
with one error. -/
theorem claim_C1_counterexample :
    (index_directory false cexC1).files_indexed = 1 ∧
    (index_directory false cexC1).files_skipped = 0 ∧
    (index_directory false cexC1).errors = [] ∧
    ¬(index_directory false cexC1).files_skipped = 1 := by
  refine ⟨by decide, by decide, by decide, by decide⟩

/-- C2 (code bug): the IndexResult.symbols aggregate matches the
componentwise sum over successfully indexed files in the seven categories
functions, types, enums, traits, modules, constants and impls, but the
aggregation loop in index_directory never adds type_aliases, so that
component is always 0 — in particular the failing input cexC2 (one
TypeScript file containing one type alias) sums to 1 yet aggregates to 0. -/
theorem claim_C2 :
    (∀ (v : Bool) (files : List FileEntry),
      (index_directory v files).symbols.functions =
        ((okFiles files).map (fun p => (symbol_counts p).functions)).sum ∧
      (index_directory v files).symbols.types =
        ((okFiles files).map (fun p => (symbol_counts p).types)).sum ∧
      (index_directory v files).symbols.enums =
        ((okFiles files).map (fun p => (symbol_counts p).enums)).sum ∧
      (index_directory v files).symbols.traits =
        ((okFiles files).map (fun p => (symbol_counts p).traits)).sum ∧
      (index_directory v files).symbols.modules =
        ((okFiles files).map (fun p => (symbol_counts p).modules)).sum ∧
      (index_directory v files).symbols.constants =
        ((okFiles files).map (fun p => (symbol_counts p).constants)).sum ∧
      (index_directory v files).symbols.impls =
        ((okFiles files).map (fun p => (symbol_counts p).impls)).sum ∧
      (index_directory v files).symbols.type_aliases = 0) ∧
    ((index_directory true cexC2).symbols.type_aliases = 0 ∧
     ((okFiles cexC2).map (fun p => (symbol_counts p).type_aliases)).sum = 1) := by
  constructor
  · intro v files
    obtain ⟨_, _, _, hsym⟩ := index_directory_fields v files
    rw [hsym]
    exact indexLoop_symbols v files
  · exact ⟨by decide, by decide⟩

/-- C3 (confirmed): search_codebase scores every symbol by the first
matching tier in priority order — exact case-insensitive name match 100
(ExactName); substring in either direction 80 (PartialName); at least one
query word in the name 50 + 10·count (PartialName); full query verbatim in
the symbol's line span 30 (ContentMatch); at least one query word in that
span 20 + 5·count (ContextMatch) — multiplies the base by the kind
multiplier (Function ×1.2, Struct/Class ×1.15, Trait/Interface ×1.1,
others ×1.0), drops zero scores, sorts descending and truncates to the
limit: the source translation equals the spec-worded pipeline. -/
theorem claim_C3 (files : List (ParsedFile × String)) (query : String) (limit : Nat) :
    search_codebase files query limit = spec_search files query limit := by
  simp only [search_codebase, spec_search, filesResults_eq_spec]

/-- C4 (corrected): the length-greater-than-2 keyword filter exists only in
the ask command's context builder; the search ranker's word-overlap tiers
consider every whitespace-separated query word.  First part: every keyword
build_context uses has length > 2.  Second part: the ranker's word-match
count for the symbol name "xab" under the query "ab qq" is 1 — the
two-character word "ab" contributes. -/
theorem claim_C4 :
    (∀ (question w : String), w ∈ build_keywords question → 2 < w.length) ∧
    (splitWs (lowerStr "ab qq")).countP (fun w => strContains (lowerStr "xab") w) = 1 := by
  constructor
  · intro question w hw
    have := List.mem_filter.mp hw
    exact of_decide_eq_true this.2
  · decide

/-- C4 witness: the keyword-length clause instantiated at a concrete
question. -/
theorem claim_C4_witness :
    ("login" ∈ build_keywords "hi login ab") ∧ 2 < ("login" : String).length :=
  ⟨by decide, claim_C4.1 "hi login ab" "login" (by decide)⟩

/-- C4 counterexample to the claim as stated: under the query "ab qq",
whose words all have length ≤ 2, the search ranker still scores the symbol
"xab" through the 50 + 10·count name-word tier (final score 60,
PartialName); were such words never counted, this symbol would score 0 and
be dropped. -/
theorem claim_C4_counterexample :
    ((search_codebase [(pf4cex, "zzz")] "ab qq" 10).map
        (List.map (fun r => (r.score, r.match_type))) =
      some [((60 : ℚ), MatchType.PartialName)]) ∧
    (splitWs (lowerStr "ab qq")).all (fun w => w.length ≤ 2) = true := by
  exact ⟨by decide, by decide⟩

/-- C5 (corrected): for queries of at most 6 whitespace-separated words, no
ContentMatch or ContextMatch result has a higher final score than any
ExactName or PartialName result of the same query (ContentMatch tops out
at 36, ContextMatch at (20 + 5·6)·1.2 = 60, while ExactName/PartialName
scores are at least 60); with more query words a ContextMatch can exceed
this bound, so the restriction is necessary. -/
theorem claim_C5 (files : List (ParsedFile × String)) (query : String) (limit : Nat)
    (rs : List SearchResult) (r1 r2 : SearchResult)
    (hsearch : search_codebase files query limit = some rs)
    (h1 : r1 ∈ rs) (h2 : r2 ∈ rs)
    (hmt1 : r1.match_type = MatchType.ContentMatch ∨ r1.match_type = MatchType.ContextMatch)
    (hmt2 : r2.match_type = MatchType.ExactName ∨ r2.match_type = MatchType.PartialName)
    (hq : (splitWs (lowerStr query)).length ≤ 6) :
    r1.score ≤ r2.score := by
  rcases mem_search hsearch h1 with ⟨f1, cur1, _, s1, _, hres1⟩
  rcases mem_search hsearch h2 with ⟨f2, cur2, _, s2, _, hres2⟩
  have b1 := result_score_bounds hres1
  have b2 := result_score_bounds hres2
  have h60 : (60 : ℚ) ≤ r2.score := b2.1 hmt2
  rcases hmt1 with hmt1 | hmt1
  · have := b1.2.1 hmt1
    linarith
  · have hb := b1.2.2 hmt1
    have hcast : ((20 + 5 * (splitWs (lowerStr query)).length : Nat) : ℚ) ≤ 50 := by
      exact_mod_cast (by omega : 20 + 5 * (splitWs (lowerStr query)).length ≤ 50)
    nlinarith

/-- C5 witness: a two-word query over a corpus holding both a PartialName
result (score 60) and a ContentMatch result (score 36). -/
theorem claim_C5_witness :
    search_codebase [(pf5w, "hello\naaa bbb")] "aaa bbb" 10 = some [w5nameRes, w5ctxRes] ∧
    w5ctxRes.score ≤ w5nameRes.score :=
  ⟨by decide,
   claim_C5 [(pf5w, "hello\naaa bbb")] "aaa bbb" 10 [w5nameRes, w5ctxRes] w5ctxRes w5nameRes
     (by decide) (by decide) (by decide) (by decide) (by decide) (by decide)⟩

/-- C5 counterexample to the claim as stated: under a nine-word query, a
ContextMatch that hits all nine words scores (20 + 5·9)·1.2 = 78 and
outranks a PartialName word-tier result of score 60. -/
theorem claim_C5_counterexample :
    ((search_codebase [(pf5cex, cur5cex)] "aaa bbb ccc ddd eee fff ggg hhh iii" 10).map
        (List.map (fun r => (r.symbol_name, r.score, r.match_type))) =
      some [("zzz", (78 : ℚ), MatchType.ContextMatch),
            ("aaamod", (60 : ℚ), MatchType.PartialName)]) ∧
    (60 : ℚ) < 78 := by
  exact ⟨by decide, by decide⟩

/-- C6 (code bug): the content/context extraction slices
lines[line_start-1 .. min(line_end, len)] without clamping the start, so
when the current file has fewer than line_start-1 lines the slice range is
invalid and search_codebase panics (modelled as none); the same corpus
with a file long enough for the recorded span succeeds. -/
theorem claim_C6 :
    search_codebase [(pf6cex, "x")] "qqq" 10 = none ∧
    search_codebase [(pf6cex, "a\nb\nc")] "qqq" 10 = some [] := by
  exact ⟨by decide, by decide⟩

/-- C7 (corrected): a symbol's signature is the first physical line of the
producing node's source span only for Function symbols; every other symbol
kind is emitted with signature = none. -/
theorem claim_C7 (lang : Language) (root : TsNode) (sym : Symbol)
    (h : sym ∈ walk_tree lang root) :
    (sym.kind = SymbolKind.Function →
      ∃ m, Reaches root m ∧ sym.signature = some (get_signature m.srcText) ∧
        sym.line_start = m.startRow + 1 ∧ sym.line_end = m.endRow + 1) ∧
    (sym.kind ≠ SymbolKind.Function → sym.signature = none) := by
  rcases mem_walk_tree_reaches lang sym root h with ⟨m, hr, hm⟩
  rcases ownSymbols_span hm with ⟨hls, hle⟩
  rcases ownSymbols_signature hm with ⟨hf, hsig⟩ | ⟨hf, hsig⟩
  · exact ⟨fun _ => ⟨m, hr, hsig, hls, hle⟩, fun hne => absurd hf hne⟩
  · exact ⟨fun hfn => absurd hfn hf, fun _ => hsig⟩

/-- C7 witness: a Python function whose emitted symbol carries the first
line of its node's text as signature. -/
theorem claim_C7_witness :
    (sym7 ∈ walk_tree Language.Python t7fun) ∧
    ((sym7.kind = SymbolKind.Function →
      ∃ m, Reaches t7fun m ∧ sym7.signature = some (get_signature m.srcText) ∧
        sym7.line_start = m.startRow + 1 ∧ sym7.line_end = m.endRow + 1) ∧
     (sym7.kind ≠ SymbolKind.Function → sym7.signature = none)) :=
  ⟨by decide, claim_C7 Language.Python t7fun sym7 (by decide)⟩

/-- C7 counterexample to the claim as stated: a Python class node whose
span's first line is the non-empty "class Foo:" is extracted with
signature = none, not with the first line of its source span. -/
theorem claim_C7_counterexample :
    walk_tree Language.Python t7class =
      [{ name := "Foo", kind := SymbolKind.Class, line_start := 1, line_end := 2,
         signature := none }] ∧
    firstLine "class Foo:\n    pass" = "class Foo:" := by
  exact ⟨by decide, by decide⟩

/-- C8 (confirmed): the context budgeter accumulates chunks strictly in the
order given, keeps a chunk only while the cumulative token count plus its
estimate stays within max_tokens, and stops at the first chunk that would
exceed the budget; for estimates [10, 10, 10] and a budget of 25 exactly
the first two chunks are included. -/
theorem claim_C8 :
    (∀ m : ContextManager,
      build_context m = concatChunks (spec_included m.max_tokens m.chunks 0)) ∧
    build_context { max_tokens := 25, chunks := [c8a, c8b, c8c] } =
      fmtChunk c8a ++ fmtChunk c8b ∧
    spec_included 25 [c8a, c8b, c8c] 0 = [c8a, c8b] := by
  refine ⟨fun m => buildLoop_eq_spec m.max_tokens m.chunks 0, by decide, by decide⟩

/-- C9 (confirmed): for a well-formed syntax tree, every symbol of the
resulting ParsedFile satisfies 1 ≤ line_start ≤ line_end ≤ line_count
(the functional model has no mutation, so the fields are constant after
creation). -/
theorem claim_C9 (lang : Language) (path content : String) (root : TsNode) (sym : Symbol)
    (hwf : Wf root)
    (h : sym ∈ (parse_file_model path content lang root).symbols) :
    1 ≤ sym.line_start ∧ sym.line_start ≤ sym.line_end ∧
      sym.line_end ≤ (parse_file_model path content lang root).line_count := by
  have h' : sym ∈ walk_tree lang root := h
  rcases mem_walk_tree_reaches lang sym root h' with ⟨m, hr, hm⟩
  rcases ownSymbols_span hm with ⟨hls, hle⟩
  rcases reaches_bounds hr hwf with ⟨h1, h2⟩
  have hcount : (parse_file_model path content lang root).line_count = root.endRow + 1 := rfl
  rw [hcount]
  omega

/-- C9 witness: the invariant instantiated at a concrete Rust tree. -/
theorem claim_C9_witness :
    Wf t9 ∧
    sym9 ∈ (parse_file_model "main.rs" "fn main()\nx\ny" Language.Rust t9).symbols ∧
    (1 ≤ sym9.line_start ∧ sym9.line_start ≤ sym9.line_end ∧
      sym9.line_end ≤ (parse_file_model "main.rs" "fn main()\nx\ny" Language.Rust t9).line_count) :=
  ⟨t9_wf, by decide,
   claim_C9 Language.Rust "main.rs" "fn main()\nx\ny" t9 sym9 t9_wf (by decide)⟩

/-- C10 (confirmed): after every add_chunk the stored chunk list is sorted
in descending relevance (the rational model has no NaN, so the comparison
is total), and therefore the chunks build_context emits — the greedy
prefix — are in descending-relevance order as well, regardless of
insertion order. -/
theorem claim_C10 (m : ContextManager) (c : ContextChunk) :
    ((add_chunk m c).chunks).Pairwise (fun a b => b.relevance ≤ a.relevance) ∧
    (spec_included (add_chunk m c).max_tokens (add_chunk m c).chunks 0).Pairwise
      (fun a b => b.relevance ≤ a.relevance) := by
  have htotal : ∀ a b : ContextChunk, relevanceDesc a b = true ∨ relevanceDesc b a = true := by
    intro a b
    rcases le_total b.relevance a.relevance with h | h
    · left; simpa [relevanceDesc] using h
    · right; simpa [relevanceDesc] using h
  have htrans : ∀ a b d : ContextChunk, relevanceDesc a b = true → relevanceDesc b d = true →
      relevanceDesc a d = true := by
    intro a b d hab hbd
    simp only [relevanceDesc, decide_eq_true_eq] at hab hbd ⊢
    exact le_trans hbd hab
  have hsorted : ((add_chunk m c).chunks).Pairwise (fun a b => relevanceDesc a b = true) :=
    pairwise_sortBy htotal htrans (m.chunks ++ [c])
  have hP : ((add_chunk m c).chunks).Pairwise (fun a b => b.relevance ≤ a.relevance) :=
    hsorted.imp (fun h => by simpa [relevanceDesc] using h)
  exact ⟨hP, hP.sublist (spec_included_sublist _ _ _)⟩


end Nexus
